import Mathlib

/-!
Verification of the STQRY storage bridge (stqry-bridge.js and its reduced
copy).  The development shallowly embeds the bridge code: JavaScript values
are modelled by the inductive `JVal`, JavaScript objects by insertion-ordered
association lists with the update-in-place semantics of property assignment,
the browser localStorage by an association list of cells, and the
transport layer (callApp / onMessage and the timeout fallback) by an
explicit event-trace state machine.
-/

/-- Model of a JavaScript (JSON) value as it occurs on the bridge wire and
in storage: null, booleans, numbers, strings, arrays and objects. -/
inductive JVal where
  | null : JVal
  | bool (b : Bool) : JVal
  | num (n : Int) : JVal
  | str (s : String) : JVal
  | arr (elems : List JVal) : JVal
  | obj (fields : List (String × JVal)) : JVal
deriving Repr

/-- A JavaScript object: an insertion-ordered list of string-keyed fields. -/
abbrev Obj := List (String × JVal)

/-- JavaScript truthiness of a value (`if (v)`): null, false, 0 and the
empty string are falsy; every object and array is truthy. -/
def JVal.truthy : JVal → Bool
  | .null => false
  | .bool b => b
  | .num n => n != 0
  | .str s => s != ""
  | .arr _ => true
  | .obj _ => true

/-- Truthiness of a possibly-absent value: `undefined` is falsy. -/
def truthyO : Option JVal → Bool
  | none => false
  | some v => v.truthy

/-- Property read `o[k]` on an object: the value of the first field named
`k` (objects built by the bridge have distinct field names), `undefined`
(`none`) when no such field exists. -/
def Obj.lookup : Obj → String → Option JVal
  | [], _ => none
  | (k2, v) :: rest, k => if k2 = k then some v else Obj.lookup rest k

/-- Property write `o[k] = v`: updates the existing field named `k` in
place, or appends a fresh field at the end (JavaScript insertion order). -/
def Obj.insert : Obj → String → JVal → Obj
  | [], k, v => [(k, v)]
  | (k2, v2) :: rest, k, v =>
      if k2 = k then (k2, v) :: rest else (k2, v2) :: Obj.insert rest k v

/-- Property deletion `delete o[k]`: removes the field named `k` when
present (objects built by the bridge have at most one such field). -/
def Obj.erase : Obj → String → Obj
  | [], _ => []
  | (k2, v2) :: rest, k =>
      if k2 = k then rest else (k2, v2) :: Obj.erase rest k

/-- `Object.assign(target, changeset)`: copies every field of `changeset`
into `target` left to right, overwriting same-named fields. -/
def Obj.assign (target : Obj) (changeset : Obj) : Obj :=
  changeset.foldl (fun acc kv => Obj.insert acc kv.1 kv.2) target

/-- The field names of an object. -/
def Obj.keys (o : Obj) : List String := o.map Prod.fst

/-- An object is well formed when its field names are distinct, as is the
case for every object a JavaScript program can build. -/
def Obj.WF (o : Obj) : Prop := (Obj.keys o).Nodup

/-- Property read `v[k]` on an arbitrary value: objects yield their field,
primitives and arrays yield `undefined` for the property names the bridge
reads. -/
def JVal.getProp : JVal → String → Option JVal
  | .obj fields, k => Obj.lookup fields k
  | _, _ => none

/-- A localStorage cell, seen through the JSON boundary: either text that
parses to an object (the only shape the bridge itself writes), or text
that `JSON.parse` rejects. -/
inductive Cell where
  | json (o : Obj) : Cell
  | corrupt : Cell
deriving Repr

/-- The browser localStorage: a mapping from storage keys to cells. -/
abbrev LocalStore := List (String × Cell)

/-- `localStorage.getItem`: the cell stored under `k`, if any. -/
def lsLookup : LocalStore → String → Option Cell
  | [], _ => none
  | (k2, c) :: rest, k => if k2 = k then some c else lsLookup rest k

/-- `localStorage.setItem`: overwrites the cell stored under `k`, keeping
its position, or appends a fresh entry. -/
def lsSet : LocalStore → String → Cell → LocalStore
  | [], k, c => [(k, c)]
  | (k2, c2) :: rest, k, c =>
      if k2 = k then (k2, c) :: rest else (k2, c2) :: lsSet rest k c

/-- JavaScript `a || d` for the optional string arguments of the storage
API (`customKey || STORAGE_KEY`): an absent or empty string falls back to
the default. -/
def jsOr (a : Option String) (d : String) : String :=
  match a with
  | some s => if s = "" then d else s
  | none => d

/-- The well-known localStorage key of the cross-tab signalling slot
written by `broadcastUpdate`. -/
def EVENT_KEY : String := "stqryStorageEvent"

/-- Bridge state visible to the Standalone (NoRuntime) storage operations:
the localStorage contents plus the trace of broadcast snapshots (each
`broadcastUpdate` call fires one cross-tab notification carrying the
snapshot). -/
structure St where
  ls : LocalStore
  events : List Obj
deriving Repr

/-- Outcome of a Standalone `storage.get`: the value returned to the
caller and, when a callback was supplied, the single argument it was
synchronously invoked with (`none` in `ret`/`cb` payload means the
JavaScript value `undefined`). -/
structure GetOut where
  ret : Option JVal
  cb : Option (Option JVal)
deriving Repr

/-- One call of the Standalone storage surface, with the explicit inputs
of the embedding: the JavaScript arguments, whether a callback was
supplied, and the `Date.now()` reading `t` used by `broadcastUpdate`. -/
inductive SOp where
  | get (key : Option String) (hasCb : Bool) (customKey : Option String) : SOp
  | set (changeset : Obj) (hasCb : Bool) (customKey : Option String) (t : Int) : SOp
  | remove (key : String) (hasCb : Bool) (customKey : Option String) (t : Int) : SOp
  | clear (hasCb : Bool) (customKey : Option String) (t : Int) : SOp
deriving Repr

/-- Observable outcome of one storage call: for `get` the returned value
and callback argument, for the mutators whether the callback ran. -/
inductive Obs where
  | got (ret : Option JVal) (cb : Option (Option JVal)) : Obs
  | done (cbRan : Bool) : Obs
deriving Repr

namespace Bridge

/-- Default localStorage key of the storage namespace
(src/stqry-bridge.js line 18). -/
def STORAGE_KEY : String := "stqryStorage"

/-- `getStoredData` (src/stqry-bridge.js lines 63 to 72): read the cell,
parse it; a missing entry or a parse failure (caught and logged) yields
the empty mapping. -/
def getStoredData (ls : LocalStore) (storageKey : String) : Obj :=
  match lsLookup ls storageKey with
  | none => []
  | some (Cell.json o) => o
  | some Cell.corrupt => []

/-- `setStoredData` (lines 80 to 87): serialize the object and store it
under the key. -/
def setStoredData (ls : LocalStore) (storageKey : String) (value : Obj) : LocalStore :=
  lsSet ls storageKey (Cell.json value)

/-- `stqry.storage.broadcastUpdate` (lines 343 to 350): write the record
`{timestamp: Date.now(), data: data}` to the signalling slot; the write is
observed by sibling tabs as one notification carrying the snapshot,
recorded here in the `events` trace. -/
def broadcastUpdate (t : Int) (data : Obj) (s : St) : St :=
  { ls := lsSet s.ls EVENT_KEY
      (Cell.json [("timestamp", JVal.num t), ("data", JVal.obj data)]),
    events := s.events ++ [data] }

/-- `stqry.storage.get`, NoRuntime branch (lines 215 to 225): read the
namespace, take the whole mapping when `key` is falsy (the test is the
JavaScript `key ?`), else the single property; invoke the callback with
that value when one was supplied; return the value. -/
def storageGet (key : Option String) (hasCb : Bool) (customKey : Option String)
    (s : St) : GetOut :=
  let storageKey := jsOr customKey STORAGE_KEY
  let storedData := getStoredData s.ls storageKey
  let value : Option JVal :=
    match key with
    | some k => if k = "" then some (JVal.obj storedData) else Obj.lookup storedData k
    | none => some (JVal.obj storedData)
  { ret := value, cb := if hasCb then some value else none }

/-- `stqry.storage.set`, NoRuntime branch (lines 249 to 264): merge the
changeset into the stored mapping with `Object.assign`, persist, then
broadcast the merged snapshot. -/
def storageSet (changeset : Obj) (customKey : Option String) (t : Int) (s : St) : St :=
  let storageKey := jsOr customKey STORAGE_KEY
  let storedData := getStoredData s.ls storageKey
  let value := Obj.assign storedData changeset
  broadcastUpdate t value { s with ls := setStoredData s.ls storageKey value }

/-- `stqry.storage.remove`, NoRuntime branch (lines 285 to 299): delete
the property, persist, broadcast the resulting snapshot. -/
def storageRemove (key : String) (customKey : Option String) (t : Int) (s : St) : St :=
  let storageKey := jsOr customKey STORAGE_KEY
  let storedData := getStoredData s.ls storageKey
  let value := Obj.erase storedData key
  broadcastUpdate t value { s with ls := setStoredData s.ls storageKey value }

/-- `stqry.storage.clear`, NoRuntime branch (lines 319 to 328): persist
the empty mapping and broadcast it. -/
def storageClear (customKey : Option String) (t : Int) (s : St) : St :=
  let storageKey := jsOr customKey STORAGE_KEY
  broadcastUpdate t [] { s with ls := setStoredData s.ls storageKey [] }

/-- One Standalone storage call with its observable outcome: the mutators
invoke the supplied callback with no arguments after persisting and
broadcasting, `get` follows its synchronous dual contract. -/
def applyOp (s : St) : SOp → St × Obs
  | SOp.get key hasCb ck =>
      let g := storageGet key hasCb ck s
      (s, Obs.got g.ret g.cb)
  | SOp.set cs hasCb ck t => (storageSet cs ck t s, Obs.done hasCb)
  | SOp.remove key hasCb ck t => (storageRemove key ck t s, Obs.done hasCb)
  | SOp.clear hasCb ck t => (storageClear ck t s, Obs.done hasCb)

/-- A sequence of Standalone storage calls with the list of their
observable outcomes. -/
def runOps (s : St) : List SOp → St × List Obs
  | [] => (s, [])
  | op :: rest =>
      let r := applyOp s op
      let r2 := runOps r.1 rest
      (r2.1, r.2 :: r2.2)

end Bridge

namespace Bridge2

/-- Default localStorage key of the reduced copy
(src/unnamed/part_001 line 12). -/
def STORAGE_KEY : String := "stqryStorage"

/-- `getStoredData` of the reduced copy (src/unnamed/part_001 lines 45
to 53). -/
def getStoredData (ls : LocalStore) (storageKey : String) : Obj :=
  match lsLookup ls storageKey with
  | none => []
  | some (Cell.json o) => o
  | some Cell.corrupt => []

/-- `setStoredData` of the reduced copy (lines 58 to 64). -/
def setStoredData (ls : LocalStore) (storageKey : String) (value : Obj) : LocalStore :=
  lsSet ls storageKey (Cell.json value)

/-- `stqry.storage.broadcastUpdate` of the reduced copy (lines 222
to 228). -/
def broadcastUpdate (t : Int) (data : Obj) (s : St) : St :=
  { ls := lsSet s.ls EVENT_KEY
      (Cell.json [("timestamp", JVal.num t), ("data", JVal.obj data)]),
    events := s.events ++ [data] }

/-- `stqry.storage.get` of the reduced copy, NoRuntime branch (lines 137
to 145). -/
def storageGet (key : Option String) (hasCb : Bool) (customKey : Option String)
    (s : St) : GetOut :=
  let storageKey := jsOr customKey STORAGE_KEY
  let storedData := getStoredData s.ls storageKey
  let value : Option JVal :=
    match key with
    | some k => if k = "" then some (JVal.obj storedData) else Obj.lookup storedData k
    | none => some (JVal.obj storedData)
  { ret := value, cb := if hasCb then some value else none }

/-- `stqry.storage.set` of the reduced copy, NoRuntime branch (lines 156
to 169). -/
def storageSet (changeset : Obj) (customKey : Option String) (t : Int) (s : St) : St :=
  let storageKey := jsOr customKey STORAGE_KEY
  let storedData := getStoredData s.ls storageKey
  let value := Obj.assign storedData changeset
  broadcastUpdate t value { s with ls := setStoredData s.ls storageKey value }

/-- `stqry.storage.remove` of the reduced copy, NoRuntime branch (lines
180 to 193). -/
def storageRemove (key : String) (customKey : Option String) (t : Int) (s : St) : St :=
  let storageKey := jsOr customKey STORAGE_KEY
  let storedData := getStoredData s.ls storageKey
  let value := Obj.erase storedData key
  broadcastUpdate t value { s with ls := setStoredData s.ls storageKey value }

/-- `stqry.storage.clear` of the reduced copy, NoRuntime branch (lines
204 to 212). -/
def storageClear (customKey : Option String) (t : Int) (s : St) : St :=
  let storageKey := jsOr customKey STORAGE_KEY
  broadcastUpdate t [] { s with ls := setStoredData s.ls storageKey [] }

/-- One storage call of the reduced copy with its observable outcome. -/
def applyOp (s : St) : SOp → St × Obs
  | SOp.get key hasCb ck =>
      let g := storageGet key hasCb ck s
      (s, Obs.got g.ret g.cb)
  | SOp.set cs hasCb ck t => (storageSet cs ck t s, Obs.done hasCb)
  | SOp.remove key hasCb ck t => (storageRemove key ck t s, Obs.done hasCb)
  | SOp.clear hasCb ck t => (storageClear ck t s, Obs.done hasCb)

/-- A sequence of storage calls of the reduced copy. -/
def runOps (s : St) : List SOp → St × List Obs
  | [] => (s, [])
  | op :: rest =>
      let r := applyOp s op
      let r2 := runOps r.1 rest
      (r2.1, r.2 :: r2.2)

end Bridge2

/-- The three runtime modes (src/stqry-bridge.js line 25). -/
inductive Runtime where
  | ReactNative : Runtime
  | IFrame : Runtime
  | NoRuntime : Runtime
deriving DecidableEq, Repr

/-- Outcome of evaluating `window.parent.postMessage` while probing the
parent: either a value with the given truthiness, or a thrown isolation
exception (cross-origin access error). -/
inductive Probe where
  | val (truthy : Bool) : Probe
  | throws : Probe
deriving DecidableEq, Repr

/-- The ambient environment observed by `detectRuntime`: truthiness of
`window.ReactNativeWebView`, truthiness of `window.parent`, whether
`window.parent !== window`, and the result of probing
`window.parent.postMessage`. -/
structure Env where
  reactNativeWebView : Bool
  parentTruthy : Bool
  parentDistinct : Bool
  probe : Probe
deriving DecidableEq, Repr

/-- `detectRuntime` (src/stqry-bridge.js lines 27 to 52): ReactNative when
the injected bridge object is present; else, with a truthy distinct
parent, IFrame when the probe finds a truthy `postMessage` or throws
(caught: cross-origin proves a parent); otherwise fall through to
NoRuntime. -/
def detectRuntime (e : Env) : Runtime :=
  if e.reactNativeWebView then Runtime.ReactNative
  else if e.parentTruthy && e.parentDistinct then
    match e.probe with
    | Probe.val true => Runtime.IFrame
    | Probe.val false => Runtime.NoRuntime
    | Probe.throws => Runtime.IFrame
  else Runtime.NoRuntime

/-- The fixed timeout delay of the fallback timer, in milliseconds
(src/stqry-bridge.js line 122). -/
def TIMEOUT_MS : Nat := 500

/-- Transport state: the callback-id counter `lastAppCallbackId` and the
pending table `appCallbacks`, represented by the list of callbackIds that
currently hold a registered callback (registration order). -/
structure TSt where
  lastId : Nat
  pending : List Nat
deriving DecidableEq, Repr

/-- An inbound `e.data` as seen by `onMessage`, through the JSON boundary:
a string that parses to `m`, a string `JSON.parse` rejects, or a value
delivered directly (non-string `e.data`). -/
inductive RawData where
  | strOf (m : JVal) : RawData
  | strBad : RawData
  | direct (m : JVal) : RawData
deriving Repr

/-- One occurrence processed by the single-threaded event loop: a
`callApp` invocation (with whether a callback and a fallback were
supplied), an inbound message, or the firing of the scheduled fallback
timer of callbackId `id`. -/
inductive Ev where
  | call (action : String) (hasCb : Bool) (hasFb : Bool) : Ev
  | msg (raw : RawData) : Ev
  | fire (id : Nat) : Ev
deriving Repr

/-- Observable outputs of the transport layer: a callbackId assignment, a
scheduled fallback timer, an outbound posted message, a stored callback
invocation (the event records which entry ran; the argument values the
array-like `args` spreads into the handler are not modelled, no claim
concerns them), a fallback invocation, and the `stqryStorageUpdated`
notification dispatched for a broadcast. -/
inductive Out where
  | assigned (id : Nat) : Out
  | timerSet (id : Nat) (delay : Nat) : Out
  | posted (action : String) (callbackId : Option Nat) : Out
  | ranCallback (id : Nat) : Out
  | ranFallback (id : Nat) : Out
  | notify (data : JVal) : Out
deriving Repr

/-- The decimal numeral of a natural number, as JavaScript renders a
property key for an integer index. -/
def natNumeral (n : Nat) : String :=
  if n = 0 then "0" else String.mk (((Nat.digits 10 n).map Nat.digitChar).reverse)

mutual

/-- JavaScript `ToString` of a value, as used when an index coerces to a
property key: a number prints its decimal numeral (sign-prefixed when
negative), a string is itself, null and booleans print their keyword, an
array joins the `ToString` of its elements with commas (null printing
empty, as `Array.prototype.join` specifies), and a plain object prints
`[object Object]`. -/
def jsToString : JVal → String
  | JVal.null => "null"
  | JVal.bool b => if b then "true" else "false"
  | JVal.num i => if i < 0 then "-" ++ natNumeral i.natAbs else natNumeral i.toNat
  | JVal.str s => s
  | JVal.arr l => arrJoin l
  | JVal.obj _ => "[object Object]"

/-- `Array.prototype.join(",")` over the elements of an array. -/
def arrJoin : List JVal → String
  | [] => ""
  | JVal.null :: [] => ""
  | x :: [] => jsToString x
  | JVal.null :: rest => "," ++ arrJoin rest
  | x :: rest => jsToString x ++ "," ++ arrJoin rest

end

/-- Property-key matching of an inbound `message.callbackId` against a
registered id: JavaScript coerces the index via `ToString`, and registered
keys are the decimal numerals of the assigned ids.  A number matches by
value (its `ToString` is its decimal numeral), a string by itself, an
array by its comma-join — `callbackId: [3]` reads the key `"3"` and
matches pending id 3; null, booleans and plain objects print `"null"`,
`"true"`/`"false"` and `"[object Object]"`, never a decimal numeral, and
match no registered key. -/
def keyMatches (cid : JVal) (k : Nat) : Bool :=
  match cid with
  | JVal.num i => i == (k : Int)
  | JVal.str s => s == natNumeral k
  | JVal.arr l => arrJoin l == natNumeral k
  | _ => false

/-- Whether `callback.apply(null, message.args || [])` throws: an absent
or falsy `args` is replaced by `[]`; `apply` accepts any object or array
as array-like (`CreateListFromArrayLike` reads its `length`, so a plain
object supplies zero arguments and the call proceeds); it throws a
TypeError exactly when `args` is a truthy primitive, which
`CreateListFromArrayLike` rejects as a non-object. -/
def applyThrows (a : Option JVal) : Bool :=
  match a with
  | none => false
  | some v =>
      if v.truthy then
        match v with
        | JVal.arr _ => false
        | JVal.obj _ => false
        | _ => true
      else false

/-- Strict string equality `v === lit` for a string literal right-hand
side: a non-string value is never strictly equal to a string. -/
def isStr (v : JVal) (lit : String) : Bool :=
  match v with
  | JVal.str s => s == lit
  | _ => false

/-- The body of `onMessage` after parsing (src/stqry-bridge.js lines 154
to 179): guard on a truthy message with a truthy `action`; on
`action === "callback"` with a truthy `callbackId`, look up the pending
table, invoke the stored callback with the spread `args` and then delete
the entry (an unknown id falls through untouched; an `apply` that throws
on truthy primitive `args` aborts the handler, `none`, before the
invocation and the deletion); independently, on
`action === "storage.updated"` with truthy `data`, dispatch the
`stqryStorageUpdated` notification. -/
def handleMsg (st : TSt) (m : JVal) : Option (TSt × List Out) :=
  if !m.truthy then some (st, []) else
  match m.getProp "action" with
  | none => some (st, [])
  | some a =>
    if !a.truthy then some (st, []) else
    let afterCb : Option (TSt × List Out) :=
      if isStr a "callback" && truthyO (m.getProp "callbackId") then
        let cid := (m.getProp "callbackId").getD JVal.null
        match st.pending.find? (fun k => keyMatches cid k) with
        | some k =>
            if applyThrows (m.getProp "args") then none
            else
              some ({ st with pending := st.pending.filter (fun x => x ≠ k) },
                [Out.ranCallback k])
        | none => some (st, [])
      else some (st, [])
    match afterCb with
    | none => none
    | some (st1, o1) =>
        if isStr a "storage.updated" && truthyO (m.getProp "data") then
          some (st1, o1 ++ [Out.notify ((m.getProp "data").getD JVal.null)])
        else some (st1, o1)

/-- `onMessage` (src/stqry-bridge.js lines 144 to 179): parse a string
`e.data` (a rejected parse is caught and the message ignored), pass a
non-string `e.data` through unchanged, then handle it; `none` is an
uncaught exception escaping the handler. -/
def onMessage (st : TSt) (raw : RawData) : Option (TSt × List Out) :=
  match raw with
  | RawData.strBad => some (st, [])
  | RawData.strOf m => handleMsg st m
  | RawData.direct m => handleMsg st m

/-- One event-loop step of the transport layer.  A `call` is `callApp`
(lines 98 to 136): with a callback it increments the counter, registers
the fresh id, schedules the 500 ms fallback timer when a fallback was
supplied, and posts the envelope; the `fire` of that timer (lines 115 to
122) invokes the fallback and deletes the entry only when the id is still
pending.  An uncaught exception inside `onMessage` occurs before any state
mutation, so the event loop continues with the state unchanged. -/
def stepT (st : TSt) : Ev → TSt × List Out
  | Ev.call action hasCb hasFb =>
      if hasCb then
        let id := st.lastId + 1
        ({ lastId := id, pending := st.pending ++ [id] },
          [Out.assigned id]
            ++ (if hasFb then [Out.timerSet id TIMEOUT_MS] else [])
            ++ [Out.posted action (some id)])
      else (st, [Out.posted action none])
  | Ev.msg raw =>
      match onMessage st raw with
      | some r => r
      | none => (st, [])
  | Ev.fire id =>
      if st.pending.contains id then
        ({ st with pending := st.pending.filter (fun x => x ≠ id) },
          [Out.ranFallback id])
      else (st, [])

/-- Run the transport event loop over a list of occurrences, collecting
the outputs in order. -/
def runT (st : TSt) : List Ev → TSt × List Out
  | [] => (st, [])
  | e :: rest =>
      let r := stepT st e
      let r2 := runT r.1 rest
      (r2.1, r.2 ++ r2.2)

/-- The transport state at page load: counter zero, no pending entry. -/
def initT : TSt := { lastId := 0, pending := [] }

/-- The callbackIds assigned by the `call` occurrences of a run. -/
def assignedIds (outs : List Out) : List Nat :=
  outs.filterMap fun o =>
    match o with
    | Out.assigned i => some i
    | _ => none

/-- How many times the stored callback of id `n` was invoked. -/
def cbCount (n : Nat) (outs : List Out) : Nat :=
  outs.countP fun o =>
    match o with
    | Out.ranCallback k => k == n
    | _ => false

/-- How many times the fallback of id `n` was invoked. -/
def fbCount (n : Nat) (outs : List Out) : Nat :=
  outs.countP fun o =>
    match o with
    | Out.ranFallback k => k == n
    | _ => false

/-- An occurrence is a matching callback Envelope for id `n`, one that
resolves the pending entry: an inbound message that parses, is truthy,
carries `action: "callback"` and a truthy `callbackId` matching `n`, and
whose `args` the engine accepts — absent, falsy, an array, or an
array-like object.  A message whose `args` is a truthy primitive is not a
resolving envelope: `apply` throws before the invocation and the
deletion, leaving the entry pending. -/
def isCbEnv (n : Nat) : Ev → Bool
  | Ev.msg (RawData.strOf m) | Ev.msg (RawData.direct m) =>
      m.truthy && isStr ((m.getProp "action").getD JVal.null) "callback"
        && truthyO (m.getProp "callbackId")
        && keyMatches ((m.getProp "callbackId").getD JVal.null) n
        && !(applyThrows (m.getProp "args"))
  | _ => false

/-- An occurrence is the firing of the fallback timer of id `n`. -/
def isFire (n : Nat) : Ev → Bool
  | Ev.fire k => k == n
  | _ => false

/-- The transport invariant: every pending id was assigned by the counter,
so it is at most `lastId`. -/
def InvT (st : TSt) : Prop := ∀ m ∈ st.pending, m ≤ st.lastId

/-- An inbound raw message is malformed for the transport layer: it is
not valid JSON, or the parsed message is falsy (for example null), or it
lacks an `action` field, or its `action` is falsy. -/
def malformedRaw (raw : RawData) : Bool :=
  match raw with
  | RawData.strBad => true
  | RawData.strOf m | RawData.direct m =>
      !m.truthy ||
        (match m.getProp "action" with
         | none => true
         | some a => !a.truthy)

/-- JavaScript-style defaulting on optional values: the left value when
present, else the right one. -/
def optOr (a b : Option JVal) : Option JVal :=
  match a with
  | some v => some v
  | none => b

/-- The value the last field named `k` of an object carries, if any (the
value JavaScript object-literal construction leaves for a duplicated
key). -/
def Obj.lookupLast (o : Obj) (k : String) : Option JVal :=
  o.foldl (fun acc kv => if kv.1 = k then some kv.2 else acc) none

/-- One step of accumulating the union of changesets at key `k`: a later
changeset that carries `k` overrides the accumulator. -/
def unionStep (k : String) (acc : Option JVal) (cs : Obj) : Option JVal :=
  match Obj.lookup cs k with
  | some v => some v
  | none => acc

/-- The value key `k` has in the union of a sequence of changesets, last
write per key winning. -/
def lookupUnion (css : List Obj) (k : String) : Option JVal :=
  css.foldl (unionStep k) none

/-- The changesets of a sequence have pairwise disjoint key sets. -/
def KeysDisjoint (css : List Obj) : Prop :=
  css.Pairwise (fun a b => ∀ k ∈ Obj.keys a, k ∉ Obj.keys b)

/-- A sequence of Standalone `storage.set` calls against one storage
namespace, each with its `Date.now()` reading. -/
def applySets (l : List (Obj × Int)) (ck : Option String) (s : St) : St :=
  l.foldl (fun s2 p => Bridge.storageSet p.1 ck p.2 s2) s

/-! ### Helper lemmas -/

lemma digitChar_inj_lt10 : ∀ a < 10, ∀ b < 10, Nat.digitChar a = Nat.digitChar b → a = b := by
  decide

lemma map_digitChar_inj : ∀ (l1 l2 : List Nat), (∀ x ∈ l1, x < 10) → (∀ x ∈ l2, x < 10) →
    l1.map Nat.digitChar = l2.map Nat.digitChar → l1 = l2 := by
  intro l1
  induction l1 with
  | nil => intro l2 _ _ h; cases l2 <;> simp_all
  | cons a t ih =>
      intro l2 h1 h2 h
      cases l2 with
      | nil => simp_all
      | cons b t2 =>
          simp only [List.map_cons, List.cons.injEq] at h
          have ha : a < 10 := h1 a (by simp)
          have hb : b < 10 := h2 b (by simp)
          have : a = b := digitChar_inj_lt10 a ha b hb h.1
          subst this
          have : t = t2 := ih t2 (fun x hx => h1 x (by simp [hx])) (fun x hx => h2 x (by simp [hx])) h.2
          simp [this]

lemma digits_map_char_inj (m n : Nat)
    (h : (Nat.digits 10 m).map Nat.digitChar = (Nat.digits 10 n).map Nat.digitChar) :
    m = n := by
  have hm := map_digitChar_inj _ _
    (fun x hx => Nat.digits_lt_base (by norm_num) hx)
    (fun x hx => Nat.digits_lt_base (by norm_num) hx) h
  have h1 := congrArg (Nat.ofDigits 10) hm
  rwa [Nat.ofDigits_digits, Nat.ofDigits_digits] at h1

lemma natNumeral_zero_case (n : Nat)
    (h : ("0" : String) = String.mk (((Nat.digits 10 n).map Nat.digitChar).reverse)) :
    n = 0 := by
  have hd : ((Nat.digits 10 n).map Nat.digitChar).reverse = ['0'] := by
    have h2 := congrArg String.data h
    have h3 : (List.cons '0' List.nil) = ((Nat.digits 10 n).map Nat.digitChar).reverse := h2
    exact h3.symm
  have hlist : (Nat.digits 10 n).map Nat.digitChar = ['0'] := by
    have h4 := congrArg List.reverse hd
    simpa using h4
  have hdig : Nat.digits 10 n = [0] := by
    apply map_digitChar_inj
    · intro x hx; exact Nat.digits_lt_base (by norm_num) hx
    · intro x hx; simp at hx; simp [hx]
    · simpa using hlist
  have h5 : n = Nat.ofDigits 10 [0] := by rw [← hdig, Nat.ofDigits_digits]
  simpa [Nat.ofDigits] using h5

lemma natNumeral_inj (m n : Nat) (h : natNumeral m = natNumeral n) : m = n := by
  unfold natNumeral at h
  by_cases hm : m = 0 <;> by_cases hn : n = 0
  · simp [hm, hn]
  · exfalso
    rw [if_pos hm, if_neg hn] at h
    exact hn (natNumeral_zero_case n h)
  · exfalso
    rw [if_neg hm, if_pos hn] at h
    exact hm (natNumeral_zero_case m h.symm)
  · rw [if_neg hm, if_neg hn] at h
    have hd := congrArg String.data h
    have hrev : ((Nat.digits 10 m).map Nat.digitChar).reverse
        = ((Nat.digits 10 n).map Nat.digitChar).reverse := hd
    have := congrArg List.reverse hrev
    simp only [List.reverse_reverse] at this
    exact digits_map_char_inj m n this

lemma keyMatches_unique (cid : JVal) (k n : Nat)
    (hk : keyMatches cid k = true) (hn : keyMatches cid n = true) : k = n := by
  cases cid <;> simp [keyMatches] at hk hn
  · omega
  · exact natNumeral_inj _ _ (hk.symm.trans hn)
  · exact natNumeral_inj _ _ (hk.symm.trans hn)

lemma optOr_none_left (b : Option JVal) : optOr none b = b := rfl

lemma optOr_some_left (v : JVal) (b : Option JVal) : optOr (some v) b = some v := rfl

lemma optOr_assoc (a b c : Option JVal) : optOr (optOr a b) c = optOr a (optOr b c) := by
  cases a <;> rfl

lemma lsLookup_lsSet_self (ls : LocalStore) (k : String) (c : Cell) :
    lsLookup (lsSet ls k c) k = some c := by
  induction ls with
  | nil => simp [lsSet, lsLookup]
  | cons hd tl ih =>
      obtain ⟨k2, c2⟩ := hd
      by_cases h : k2 = k <;> simp [lsSet, lsLookup, h, ih]

lemma lsLookup_lsSet_ne (ls : LocalStore) (k k2 : String) (c : Cell) (h : k2 ≠ k) :
    lsLookup (lsSet ls k c) k2 = lsLookup ls k2 := by
  induction ls with
  | nil => simp [lsSet, lsLookup, Ne.symm h]
  | cons hd tl ih =>
      obtain ⟨k3, c3⟩ := hd
      by_cases h3 : k3 = k
      · subst h3
        simp [lsSet, lsLookup, Ne.symm h]
      · by_cases h4 : k3 = k2 <;> simp [lsSet, lsLookup, h, h3, h4, ih]

lemma lsSet_lsSet (ls : LocalStore) (k : String) (a b : Cell) :
    lsSet (lsSet ls k a) k b = lsSet ls k b := by
  induction ls with
  | nil => simp [lsSet]
  | cons hd tl ih =>
      obtain ⟨k2, c2⟩ := hd
      by_cases h : k2 = k <;> simp [lsSet, h, ih]

lemma Obj.lookup_insert (o : Obj) (k k2 : String) (v : JVal) :
    Obj.lookup (Obj.insert o k v) k2 = if k = k2 then some v else Obj.lookup o k2 := by
  induction o with
  | nil => simp [Obj.insert, Obj.lookup]
  | cons hd tl ih =>
      obtain ⟨k3, v3⟩ := hd
      by_cases h3 : k3 = k
      · subst h3
        by_cases h4 : k3 = k2 <;> simp [Obj.insert, Obj.lookup, h4]
      · by_cases h4 : k3 = k2
        · subst h4
          simp [Obj.insert, Obj.lookup, h3, Ne.symm h3]
        · simp [Obj.insert, Obj.lookup, h3, h4, ih]

lemma foldl_last_or (cs : Obj) (k : String) : ∀ acc : Option JVal,
    cs.foldl (fun a kv => if kv.1 = k then some kv.2 else a) acc
      = optOr (Obj.lookupLast cs k) acc := by
  induction cs with
  | nil => intro acc; simp [Obj.lookupLast, optOr]
  | cons hd tl ih =>
      intro acc
      have hstep : ∀ a : Option JVal,
          (hd :: tl).foldl (fun a2 kv => if kv.1 = k then some kv.2 else a2) a
            = tl.foldl (fun a2 kv => if kv.1 = k then some kv.2 else a2)
                (if hd.1 = k then some hd.2 else a) := by
        intro a; rfl
      rw [hstep, ih]
      have hLast : Obj.lookupLast (hd :: tl) k
          = optOr (Obj.lookupLast tl k) (if hd.1 = k then some hd.2 else none) := by
        show tl.foldl (fun a2 kv => if kv.1 = k then some kv.2 else a2)
            (if hd.1 = k then some hd.2 else none) = _
        rw [ih]
      rw [hLast, optOr_assoc]
      congr 1
      by_cases h : hd.1 = k <;> simp [h, optOr]

lemma lookupLast_cons (hd : String × JVal) (tl : Obj) (k : String) :
    Obj.lookupLast (hd :: tl) k
      = optOr (Obj.lookupLast tl k) (if hd.1 = k then some hd.2 else none) := by
  show tl.foldl (fun a2 kv => if kv.1 = k then some kv.2 else a2)
      (if hd.1 = k then some hd.2 else none) = _
  rw [foldl_last_or]

lemma Obj.lookup_assign (o cs : Obj) (k : String) :
    Obj.lookup (Obj.assign o cs) k = optOr (Obj.lookupLast cs k) (Obj.lookup o k) := by
  induction cs generalizing o with
  | nil => simp [Obj.assign, Obj.lookupLast, optOr]
  | cons hd tl ih =>
      have hstep : Obj.assign o (hd :: tl) = Obj.assign (Obj.insert o hd.1 hd.2) tl := rfl
      rw [hstep, ih, lookupLast_cons, optOr_assoc]
      congr 1
      rw [Obj.lookup_insert]
      by_cases h : hd.1 = k <;> simp [h, optOr]

lemma lookup_eq_none_of_not_mem_keys (o : Obj) (k : String) (h : k ∉ Obj.keys o) :
    Obj.lookup o k = none := by
  induction o with
  | nil => rfl
  | cons hd tl ih =>
      obtain ⟨k2, v2⟩ := hd
      simp [Obj.keys] at h
      simp [Obj.lookup, h.1, ih (by simp [Obj.keys, h.2])]
      intro hc
      exact absurd hc.symm h.1

lemma optOr_none_right (a : Option JVal) : optOr a none = a := by
  cases a <;> rfl

lemma lookupLast_eq_lookup (cs : Obj) (k : String) (hwf : Obj.WF cs) :
    Obj.lookupLast cs k = Obj.lookup cs k := by
  induction cs with
  | nil => rfl
  | cons hd tl ih =>
      obtain ⟨k2, v2⟩ := hd
      have h0 : (k2 :: List.map Prod.fst tl).Nodup := hwf
      have hnotin : k2 ∉ Obj.keys tl := (List.nodup_cons.mp h0).1
      have hwf2 : Obj.WF tl := (List.nodup_cons.mp h0).2
      rw [lookupLast_cons, ih hwf2]
      by_cases h : k2 = k
      · subst h
        simp [Obj.lookup, lookup_eq_none_of_not_mem_keys tl k2 hnotin, optOr]
      · simp [Obj.lookup, h, optOr_none_right]

lemma erase_of_not_found (o : Obj) (k : String) (h : Obj.lookup o k = none) :
    Obj.erase o k = o := by
  induction o with
  | nil => rfl
  | cons hd tl ih =>
      obtain ⟨k2, v2⟩ := hd
      by_cases h2 : k2 = k
      · simp [Obj.lookup, h2] at h
      · simp [Obj.lookup, h2] at h
        simp [Obj.erase, h2, ih h]

lemma lookup_erase_ne (o : Obj) (k k2 : String) (h : k2 ≠ k) :
    Obj.lookup (Obj.erase o k) k2 = Obj.lookup o k2 := by
  induction o with
  | nil => rfl
  | cons hd tl ih =>
      obtain ⟨k3, v3⟩ := hd
      by_cases h3 : k3 = k
      · subst h3
        simp [Obj.erase, Obj.lookup, Ne.symm h]
      · by_cases h4 : k3 = k2 <;> simp [Obj.erase, Obj.lookup, h, h3, h4, ih]

lemma lookup_erase_self (o : Obj) (k : String) (hwf : Obj.WF o) :
    Obj.lookup (Obj.erase o k) k = none := by
  induction o with
  | nil => rfl
  | cons hd tl ih =>
      obtain ⟨k2, v2⟩ := hd
      have h0 : (k2 :: List.map Prod.fst tl).Nodup := hwf
      have hnotin : k2 ∉ Obj.keys tl := (List.nodup_cons.mp h0).1
      have hwf2 : Obj.WF tl := (List.nodup_cons.mp h0).2
      by_cases h2 : k2 = k
      · subst h2
        simp [Obj.erase, lookup_eq_none_of_not_mem_keys tl k2 hnotin]
      · simp [Obj.erase, Obj.lookup, h2, ih hwf2]

lemma unionStep_optOr (k : String) (acc : Option JVal) (cs : Obj) :
    unionStep k acc cs = optOr (Obj.lookup cs k) acc := by
  unfold unionStep optOr
  cases Obj.lookup cs k <;> rfl

lemma foldl_union_or (css : List Obj) (k : String) : ∀ acc : Option JVal,
    css.foldl (unionStep k) acc = optOr (lookupUnion css k) acc := by
  induction css with
  | nil => intro acc; simp [lookupUnion, optOr]
  | cons c l2 ih =>
      intro acc
      have e1 : lookupUnion (c :: l2) k = optOr (lookupUnion l2 k) (unionStep k none c) := by
        show (c :: l2).foldl (unionStep k) none = _
        rw [List.foldl_cons, ih]
      rw [List.foldl_cons, ih, e1, optOr_assoc]
      congr 1
      rw [unionStep_optOr, unionStep_optOr, optOr_none_right]

lemma lookupUnion_cons (cs : Obj) (css : List Obj) (k : String) :
    lookupUnion (cs :: css) k = optOr (lookupUnion css k) (Obj.lookup cs k) := by
  show (cs :: css).foldl (unionStep k) none = _
  rw [List.foldl_cons, foldl_union_or]
  congr 1
  rw [unionStep_optOr, optOr_none_right]

lemma getStoredData_lsSet_self (ls : LocalStore) (sk : String) (o : Obj) :
    Bridge.getStoredData (lsSet ls sk (Cell.json o)) sk = o := by
  simp [Bridge.getStoredData, lsLookup_lsSet_self]

lemma getStoredData_lsSet_ne (ls : LocalStore) (k sk : String) (c : Cell) (h : sk ≠ k) :
    Bridge.getStoredData (lsSet ls k c) sk = Bridge.getStoredData ls sk := by
  simp [Bridge.getStoredData, lsLookup_lsSet_ne _ _ _ _ h]

lemma getStoredData_storageSet (cs : Obj) (ck : Option String) (t : Int) (s : St)
    (hsk : jsOr ck Bridge.STORAGE_KEY ≠ EVENT_KEY) :
    Bridge.getStoredData (Bridge.storageSet cs ck t s).ls (jsOr ck Bridge.STORAGE_KEY)
      = Obj.assign (Bridge.getStoredData s.ls (jsOr ck Bridge.STORAGE_KEY)) cs := by
  show Bridge.getStoredData
      (lsSet (lsSet s.ls (jsOr ck Bridge.STORAGE_KEY) _) EVENT_KEY _)
      (jsOr ck Bridge.STORAGE_KEY) = _
  rw [getStoredData_lsSet_ne _ _ _ _ hsk, getStoredData_lsSet_self]

lemma getStoredData_storageRemove (key : String) (ck : Option String) (t : Int) (s : St)
    (hsk : jsOr ck Bridge.STORAGE_KEY ≠ EVENT_KEY) :
    Bridge.getStoredData (Bridge.storageRemove key ck t s).ls (jsOr ck Bridge.STORAGE_KEY)
      = Obj.erase (Bridge.getStoredData s.ls (jsOr ck Bridge.STORAGE_KEY)) key := by
  show Bridge.getStoredData
      (lsSet (lsSet s.ls (jsOr ck Bridge.STORAGE_KEY) _) EVENT_KEY _)
      (jsOr ck Bridge.STORAGE_KEY) = _
  rw [getStoredData_lsSet_ne _ _ _ _ hsk, getStoredData_lsSet_self]

lemma applySets_lookup (l : List (Obj × Int)) (ck : Option String) (s : St)
    (hsk : jsOr ck Bridge.STORAGE_KEY ≠ EVENT_KEY)
    (hwf : ∀ p ∈ l, Obj.WF p.1) (k : String) :
    Obj.lookup (Bridge.getStoredData (applySets l ck s).ls (jsOr ck Bridge.STORAGE_KEY)) k
      = optOr (lookupUnion (l.map Prod.fst) k)
          (Obj.lookup (Bridge.getStoredData s.ls (jsOr ck Bridge.STORAGE_KEY)) k) := by
  induction l generalizing s with
  | nil => simp [applySets, lookupUnion, optOr]
  | cons p rest ih =>
      have hstep : applySets (p :: rest) ck s
          = applySets rest ck (Bridge.storageSet p.1 ck p.2 s) := rfl
      rw [hstep, ih (Bridge.storageSet p.1 ck p.2 s) (fun q hq => hwf q (by simp [hq]))]
      rw [getStoredData_storageSet _ _ _ _ hsk, Obj.lookup_assign]
      rw [lookupLast_eq_lookup _ _ (hwf p (by simp))]
      rw [List.map_cons, lookupUnion_cons, optOr_assoc]

lemma cbCount_append (n : Nat) (a b : List Out) :
    cbCount n (a ++ b) = cbCount n a + cbCount n b := by
  simp [cbCount, List.countP_append]

lemma fbCount_append (n : Nat) (a b : List Out) :
    fbCount n (a ++ b) = fbCount n a + fbCount n b := by
  simp [fbCount, List.countP_append]

lemma assignedIds_append (a b : List Out) :
    assignedIds (a ++ b) = assignedIds a ++ assignedIds b := by
  simp [assignedIds, List.filterMap_append]

lemma handleMsg_main (st : TSt) (m : JVal) (r : TSt × List Out)
    (h : handleMsg st m = some r) :
    r.1.lastId = st.lastId ∧ assignedIds r.2 = [] ∧ (∀ n, fbCount n r.2 = 0) ∧
    ((r.1 = st ∧ ∀ n, cbCount n r.2 = 0) ∨
     (∃ k,
        k ∈ st.pending ∧
        m.truthy = true ∧
        isStr ((m.getProp "action").getD JVal.null) "callback" = true ∧
        truthyO (m.getProp "callbackId") = true ∧
        keyMatches ((m.getProp "callbackId").getD JVal.null) k = true ∧
        applyThrows (m.getProp "args") = false ∧
        r.1 = { st with pending := st.pending.filter (fun x => x ≠ k) } ∧
        (∀ n, cbCount n r.2 = if k = n then 1 else 0))) := by
  unfold handleMsg at h
  cases htr : m.truthy with
  | false =>
      simp only [htr, Bool.not_false, if_true] at h
      cases h
      exact ⟨rfl, rfl, fun n => rfl, Or.inl ⟨rfl, fun n => rfl⟩⟩
  | true =>
      simp only [htr, Bool.not_true, if_false] at h
      cases hact : m.getProp "action" with
      | none =>
          rw [hact] at h
          cases h
          exact ⟨rfl, rfl, fun n => rfl, Or.inl ⟨rfl, fun n => rfl⟩⟩
      | some a =>
          rw [hact] at h
          cases hatr : a.truthy with
          | false =>
              simp only [hatr, Bool.not_false, if_true] at h
              cases h
              exact ⟨rfl, rfl, fun n => rfl, Or.inl ⟨rfl, fun n => rfl⟩⟩
          | true =>
              simp only [hatr, Bool.not_true, if_false] at h
              cases hcond : (isStr a "callback" && truthyO (m.getProp "callbackId")) with
              | false =>
                  rw [hcond] at h
                  simp only [Bool.false_eq_true, if_false] at h
                  cases hupd : (isStr a "storage.updated" && truthyO (m.getProp "data")) with
                  | false =>
                      rw [hupd] at h
                      simp only [Bool.false_eq_true, if_false] at h
                      cases h
                      exact ⟨rfl, rfl, fun n => rfl, Or.inl ⟨rfl, fun n => rfl⟩⟩
                  | true =>
                      rw [hupd] at h
                      simp only [if_true] at h
                      cases h
                      exact ⟨rfl, rfl, fun n => rfl, Or.inl ⟨rfl, fun n => rfl⟩⟩
              | true =>
                  rw [hcond] at h
                  simp only [if_true] at h
                  cases hfind : st.pending.find?
                      (fun k => keyMatches ((m.getProp "callbackId").getD JVal.null) k) with
                  | none =>
                      simp only [hfind] at h
                      cases hupd : (isStr a "storage.updated" && truthyO (m.getProp "data")) with
                      | false =>
                          rw [hupd] at h
                          simp only [Bool.false_eq_true, if_false] at h
                          cases h
                          exact ⟨rfl, rfl, fun n => rfl, Or.inl ⟨rfl, fun n => rfl⟩⟩
                      | true =>
                          rw [hupd] at h
                          simp only [if_true] at h
                          cases h
                          exact ⟨rfl, rfl, fun n => rfl, Or.inl ⟨rfl, fun n => rfl⟩⟩
                  | some k =>
                      simp only [hfind] at h
                      cases hargs : applyThrows (m.getProp "args") with
                      | true =>
                          rw [hargs] at h
                          simp at h
                      | false =>
                          rw [hargs] at h
                          simp only [Bool.false_eq_true, if_false] at h
                          have hk : k ∈ st.pending := List.mem_of_find?_eq_some hfind
                          have hkm := List.find?_some hfind
                          have hcond2 := hcond
                          rw [Bool.and_eq_true] at hcond2
                          have hkm2 : keyMatches ((m.getProp "callbackId").getD JVal.null) k = true := by
                            simpa using hkm
                          cases hupd : (isStr a "storage.updated" && truthyO (m.getProp "data")) with
                          | false =>
                              rw [hupd] at h
                              simp only [Bool.false_eq_true, if_false] at h
                              cases h
                              refine ⟨rfl, rfl, fun n => rfl, Or.inr ⟨k, hk, rfl, hcond2.1,
                                hcond2.2, hkm2, rfl, rfl, fun n => ?_⟩⟩
                              by_cases hkn : k = n <;> simp [cbCount, List.countP_cons, hkn]
                          | true =>
                              rw [hupd] at h
                              simp only [if_true] at h
                              cases h
                              refine ⟨rfl, rfl, fun n => rfl, Or.inr ⟨k, hk, rfl, hcond2.1,
                                hcond2.2, hkm2, rfl, rfl, fun n => ?_⟩⟩
                              by_cases hkn : k = n <;>
                                simp [cbCount, fbCount, List.countP_cons, hkn]

lemma handleMsg_cbEnv_forced (st : TSt) (m : JVal) (n : Nat) (hn : n ∈ st.pending)
    (htr : m.truthy = true)
    (hstr : isStr ((m.getProp "action").getD JVal.null) "callback" = true)
    (hcid : truthyO (m.getProp "callbackId") = true)
    (hkm : keyMatches ((m.getProp "callbackId").getD JVal.null) n = true)
    (hargs : applyThrows (m.getProp "args") = false) :
    handleMsg st m
      = some ({ st with pending := st.pending.filter (fun x => x ≠ n) },
          [Out.ranCallback n]) := by
  obtain ⟨a, hact⟩ : ∃ a, m.getProp "action" = some a := by
    cases hma : m.getProp "action" with
    | none => rw [hma] at hstr; simp [isStr] at hstr
    | some a2 => exact ⟨a2, rfl⟩
  rw [hact] at hstr
  simp only [Option.getD_some] at hstr
  obtain ⟨s, rfl⟩ : ∃ s, a = JVal.str s := by
    cases a with
    | str s => exact ⟨s, rfl⟩
    | null => simp [isStr] at hstr
    | bool b => simp [isStr] at hstr
    | num i => simp [isStr] at hstr
    | arr l => simp [isStr] at hstr
    | obj o => simp [isStr] at hstr
  have hs : s = "callback" := by simpa [isStr] using hstr
  subst hs
  have hfind : st.pending.find?
      (fun k => keyMatches ((m.getProp "callbackId").getD JVal.null) k) = some n := by
    cases hf : st.pending.find?
        (fun k => keyMatches ((m.getProp "callbackId").getD JVal.null) k) with
    | none =>
        exfalso
        have h2 := List.find?_eq_none.mp hf n hn
        simp [hkm] at h2
    | some k =>
        have hkm2 : keyMatches ((m.getProp "callbackId").getD JVal.null) k = true := by
          simpa using List.find?_some hf
        have hkn := keyMatches_unique _ _ _ hkm2 hkm
        rw [hkn]
  have htr2 : (JVal.str "callback").truthy = true := rfl
  unfold handleMsg
  simp [htr, hact, hcid, hfind, hargs, isStr, htr2]

lemma onMessage_cases (st : TSt) (raw : RawData) (r : TSt × List Out)
    (h : onMessage st raw = some r) :
    r.1.lastId = st.lastId ∧ assignedIds r.2 = [] ∧ (∀ n, fbCount n r.2 = 0) ∧
    ((r.1 = st ∧ ∀ n, cbCount n r.2 = 0) ∨
     (∃ k, k ∈ st.pending ∧
        r.1 = { st with pending := st.pending.filter (fun x => x ≠ k) } ∧
        isCbEnv k (Ev.msg raw) = true ∧
        (∀ n, cbCount n r.2 = if k = n then 1 else 0))) := by
  cases raw with
  | strBad =>
      simp [onMessage] at h
      subst h
      exact ⟨rfl, rfl, fun n => rfl, Or.inl ⟨rfl, fun n => rfl⟩⟩
  | strOf m =>
      have hmain := handleMsg_main st m r h
      obtain ⟨h1, h2, h3, h4⟩ := hmain
      refine ⟨h1, h2, h3, ?_⟩
      cases h4 with
      | inl hl => exact Or.inl hl
      | inr hr =>
          obtain ⟨k, hk, htr, hstr, hcid, hkm, hargs, hst, hcnt⟩ := hr
          refine Or.inr ⟨k, hk, hst, ?_, hcnt⟩
          simp [isCbEnv, htr, hstr, hcid, hkm, hargs]
  | direct m =>
      have hmain := handleMsg_main st m r h
      obtain ⟨h1, h2, h3, h4⟩ := hmain
      refine ⟨h1, h2, h3, ?_⟩
      cases h4 with
      | inl hl => exact Or.inl hl
      | inr hr =>
          obtain ⟨k, hk, htr, hstr, hcid, hkm, hargs, hst, hcnt⟩ := hr
          refine Or.inr ⟨k, hk, hst, ?_, hcnt⟩
          simp [isCbEnv, htr, hstr, hcid, hkm, hargs]

lemma stepT_absent (st : TSt) (e : Ev) (n : Nat) (hinv : InvT st)
    (hn : n ∉ st.pending) (hle : n ≤ st.lastId) :
    n ∉ (stepT st e).1.pending ∧ n ≤ (stepT st e).1.lastId ∧ InvT (stepT st e).1 ∧
    cbCount n (stepT st e).2 = 0 ∧ fbCount n (stepT st e).2 = 0 := by
  cases e with
  | call a hasCb hasFb =>
      cases hasCb with
      | false => exact ⟨hn, hle, hinv, rfl, rfl⟩
      | true =>
          refine ⟨?_, ?_, ?_, ?_, ?_⟩
          · show n ∉ st.pending ++ [st.lastId + 1]
            simp only [List.mem_append, List.mem_singleton]
            rintro (hmem | hmem)
            · exact hn hmem
            · omega
          · show n ≤ st.lastId + 1
            omega
          · intro m hm
            show m ≤ st.lastId + 1
            have hm0 : m ∈ st.pending ++ [st.lastId + 1] := hm
            simp only [List.mem_append, List.mem_singleton] at hm0
            cases hm0 with
            | inl hm2 => have := hinv m hm2; omega
            | inr hm2 => omega
          · cases hasFb <;> rfl
          · cases hasFb <;> rfl
  | msg raw =>
      cases honm : onMessage st raw with
      | none =>
          have hstep : stepT st (Ev.msg raw) = (st, []) := by
            show (match onMessage st raw with
              | some r2 => r2
              | none => (st, [])) = (st, [])
            rw [honm]
          rw [hstep]
          exact ⟨hn, hle, hinv, rfl, rfl⟩
      | some r =>
          have hstep : stepT st (Ev.msg raw) = r := by
            show (match onMessage st raw with
              | some r2 => r2
              | none => (st, [])) = r
            rw [honm]
          rw [hstep]
          obtain ⟨h1, h2, h3, h4⟩ := onMessage_cases st raw r honm
          cases h4 with
          | inl hl =>
              rw [hl.1]
              exact ⟨hn, hle, hinv, hl.2 n, h3 n⟩
          | inr hr =>
              obtain ⟨k, hk, hst, hcb, hcnt⟩ := hr
              have hkn : k ≠ n := fun hc => hn (hc ▸ hk)
              refine ⟨?_, ?_, ?_, ?_, h3 n⟩
              · rw [hst]
                intro hc
                exact hn (List.mem_of_mem_filter hc)
              · rw [h1]; exact hle
              · intro m hm
                rw [hst] at hm
                have hm2 := List.mem_of_mem_filter hm
                rw [h1]
                exact hinv m hm2
              · rw [hcnt n, if_neg hkn]
  | fire id =>
      cases hc : st.pending.contains id with
      | false => simp only [stepT, hc]; exact ⟨hn, hle, hinv, rfl, rfl⟩
      | true =>
          simp only [stepT, hc, if_true]
          have hid : id ∈ st.pending := by
            simpa using hc
          have hidn : id ≠ n := fun hcc => hn (hcc ▸ hid)
          refine ⟨?_, hle, ?_, rfl, ?_⟩
          · intro hcc
            exact hn (List.mem_of_mem_filter hcc)
          · intro m hm
            exact hinv m (List.mem_of_mem_filter hm)
          · simp [fbCount, List.countP_cons, hidn]

lemma stepT_untouched (st : TSt) (e : Ev) (n : Nat) (hinv : InvT st)
    (hn : n ∈ st.pending) (hcb : isCbEnv n e = false) (hfr : isFire n e = false) :
    n ∈ (stepT st e).1.pending ∧ n ≤ (stepT st e).1.lastId ∧ InvT (stepT st e).1 ∧
    cbCount n (stepT st e).2 = 0 ∧ fbCount n (stepT st e).2 = 0 := by
  have hle : n ≤ st.lastId := hinv n hn
  cases e with
  | call a hasCb hasFb =>
      cases hasCb with
      | false => exact ⟨hn, hle, hinv, rfl, rfl⟩
      | true =>
          refine ⟨?_, ?_, ?_, ?_, ?_⟩
          · show n ∈ st.pending ++ [st.lastId + 1]
            exact List.mem_append_left _ hn
          · show n ≤ st.lastId + 1
            omega
          · intro m hm
            show m ≤ st.lastId + 1
            have hm0 : m ∈ st.pending ++ [st.lastId + 1] := hm
            simp only [List.mem_append, List.mem_singleton] at hm0
            cases hm0 with
            | inl hm2 => have := hinv m hm2; omega
            | inr hm2 => omega
          · cases hasFb <;> rfl
          · cases hasFb <;> rfl
  | msg raw =>
      cases honm : onMessage st raw with
      | none =>
          have hstep : stepT st (Ev.msg raw) = (st, []) := by
            show (match onMessage st raw with
              | some r2 => r2
              | none => (st, [])) = (st, [])
            rw [honm]
          rw [hstep]
          exact ⟨hn, hle, hinv, rfl, rfl⟩
      | some r =>
          have hstep : stepT st (Ev.msg raw) = r := by
            show (match onMessage st raw with
              | some r2 => r2
              | none => (st, [])) = r
            rw [honm]
          rw [hstep]
          obtain ⟨h1, h2, h3, h4⟩ := onMessage_cases st raw r honm
          cases h4 with
          | inl hl =>
              rw [hl.1]
              exact ⟨hn, hle, hinv, hl.2 n, h3 n⟩
          | inr hr =>
              obtain ⟨k, hk, hst, hcbk, hcnt⟩ := hr
              have hkn : k ≠ n := by
                intro hc
                rw [hc] at hcbk
                rw [hcbk] at hcb
                exact Bool.true_eq_false.mp hcb
              refine ⟨?_, ?_, ?_, ?_, h3 n⟩
              · rw [hst]
                apply List.mem_filter.mpr
                exact ⟨hn, by simp [Ne.symm hkn]⟩
              · rw [h1]; exact hle
              · intro m hm
                rw [hst] at hm
                rw [h1]
                exact hinv m (List.mem_of_mem_filter hm)
              · rw [hcnt n, if_neg hkn]
  | fire id =>
      have hidn : id ≠ n := by
        intro hc
        rw [hc] at hfr
        simp [isFire] at hfr
      cases hc : st.pending.contains id with
      | false => simp only [stepT, hc]; exact ⟨hn, hle, hinv, rfl, rfl⟩
      | true =>
          simp only [stepT, hc, if_true]
          refine ⟨?_, hle, ?_, rfl, ?_⟩
          · apply List.mem_filter.mpr
            exact ⟨hn, by simp [Ne.symm hidn]⟩
          · intro m hm
            exact hinv m (List.mem_of_mem_filter hm)
          · simp [fbCount, List.countP_cons, hidn]

lemma stepT_cbEnv (st : TSt) (n : Nat) (raw : RawData) (hinv : InvT st)
    (hn : n ∈ st.pending) (hcb : isCbEnv n (Ev.msg raw) = true) :
    n ∉ (stepT st (Ev.msg raw)).1.pending ∧ n ≤ (stepT st (Ev.msg raw)).1.lastId ∧
    InvT (stepT st (Ev.msg raw)).1 ∧
    cbCount n (stepT st (Ev.msg raw)).2 = 1 ∧ fbCount n (stepT st (Ev.msg raw)).2 = 0 := by
  have hle : n ≤ st.lastId := hinv n hn
  have hforced : ∃ m, onMessage st raw = handleMsg st m ∧
      m.truthy = true ∧
      isStr ((m.getProp "action").getD JVal.null) "callback" = true ∧
      truthyO (m.getProp "callbackId") = true ∧
      keyMatches ((m.getProp "callbackId").getD JVal.null) n = true ∧
      applyThrows (m.getProp "args") = false := by
    cases raw with
    | strBad => simp [isCbEnv] at hcb
    | strOf m =>
        refine ⟨m, rfl, ?_⟩
        simpa [isCbEnv, Bool.and_eq_true, and_assoc] using hcb
    | direct m =>
        refine ⟨m, rfl, ?_⟩
        simpa [isCbEnv, Bool.and_eq_true, and_assoc] using hcb
  obtain ⟨m, hraw, htr, hstr, hcid, hkm, hargs⟩ := hforced
  have hres := handleMsg_cbEnv_forced st m n hn htr hstr hcid hkm hargs
  have hstep : stepT st (Ev.msg raw)
      = ({ st with pending := st.pending.filter (fun x => x ≠ n) },
          [Out.ranCallback n]) := by
    show (match onMessage st raw with
      | some r2 => r2
      | none => (st, [])) = _
    rw [hraw, hres]
  rw [hstep]
  refine ⟨?_, hle, ?_, ?_, rfl⟩
  · intro hc
    have := (List.mem_filter.mp hc).2
    simp at this
  · intro m2 hm2
    exact hinv m2 (List.mem_of_mem_filter hm2)
  · simp [cbCount, List.countP_cons]

lemma stepT_fire_pending (st : TSt) (n : Nat) (hinv : InvT st) (hn : n ∈ st.pending) :
    n ∉ (stepT st (Ev.fire n)).1.pending ∧ n ≤ (stepT st (Ev.fire n)).1.lastId ∧
    InvT (stepT st (Ev.fire n)).1 ∧
    cbCount n (stepT st (Ev.fire n)).2 = 0 ∧ fbCount n (stepT st (Ev.fire n)).2 = 1 := by
  have hle : n ≤ st.lastId := hinv n hn
  have hc : st.pending.contains n = true := by simpa using hn
  have hstep : stepT st (Ev.fire n)
      = ({ st with pending := st.pending.filter (fun x => x ≠ n) },
          [Out.ranFallback n]) := by
    show (if st.pending.contains n = true then
        ({ st with pending := st.pending.filter (fun x => x ≠ n) }, [Out.ranFallback n])
      else (st, [])) = _
    rw [if_pos hc]
  rw [hstep]
  refine ⟨?_, hle, ?_, rfl, ?_⟩
  · intro hc2
    have := (List.mem_filter.mp hc2).2
    simp at this
  · intro m2 hm2
    exact hinv m2 (List.mem_of_mem_filter hm2)
  · simp [fbCount, List.countP_cons]

lemma runT_append (a b : List Ev) (st : TSt) :
    runT st (a ++ b)
      = ((runT (runT st a).1 b).1, (runT st a).2 ++ (runT (runT st a).1 b).2) := by
  induction a generalizing st with
  | nil => simp [runT]
  | cons e rest ih =>
      show runT st (e :: (rest ++ b)) = _
      rw [runT]
      rw [ih (stepT st e).1]
      rw [runT]
      simp [List.append_assoc]

lemma runT_absent (evs : List Ev) (st : TSt) (n : Nat) (hinv : InvT st)
    (hn : n ∉ st.pending) (hle : n ≤ st.lastId) :
    n ∉ (runT st evs).1.pending ∧ InvT (runT st evs).1 ∧ n ≤ (runT st evs).1.lastId ∧
    cbCount n (runT st evs).2 = 0 ∧ fbCount n (runT st evs).2 = 0 := by
  induction evs generalizing st with
  | nil => exact ⟨hn, hinv, hle, rfl, rfl⟩
  | cons e rest ih =>
      obtain ⟨s1, s2, s3, s4, s5⟩ := stepT_absent st e n hinv hn hle
      obtain ⟨r1, r2, r3, r4, r5⟩ := ih (stepT st e).1 s3 s1 s2
      rw [runT]
      refine ⟨r1, r2, r3, ?_, ?_⟩
      · rw [cbCount_append, s4, r4]
      · rw [fbCount_append, s5, r5]

lemma runT_untouched (evs : List Ev) (st : TSt) (n : Nat) (hinv : InvT st)
    (hn : n ∈ st.pending)
    (hquiet : ∀ e ∈ evs, isCbEnv n e = false ∧ isFire n e = false) :
    n ∈ (runT st evs).1.pending ∧ InvT (runT st evs).1 ∧
    cbCount n (runT st evs).2 = 0 ∧ fbCount n (runT st evs).2 = 0 := by
  induction evs generalizing st with
  | nil => exact ⟨hn, hinv, rfl, rfl⟩
  | cons e rest ih =>
      obtain ⟨hq1, hq2⟩ := hquiet e (by simp)
      obtain ⟨s1, s2, s3, s4, s5⟩ := stepT_untouched st e n hinv hn hq1 hq2
      obtain ⟨r1, r2, r3, r4⟩ := ih (stepT st e).1 s3 s1
        (fun e2 he2 => hquiet e2 (by simp [he2]))
      rw [runT]
      refine ⟨r1, r2, ?_, ?_⟩
      · rw [cbCount_append, s4, r3]
      · rw [fbCount_append, s5, r4]

/-- C3: for a pending callbackId `n` whose fallback timer fires once
(after the events `evs1`, before the events `evs2`), exactly one of the
stored callback and the fallback runs, exactly once, and the pending entry
is removed: if a matching callback Envelope arrives among `evs1` the
stored callback runs and the later timer firing is a no-op, so the
fallback never executes; otherwise the fallback executes exactly once. -/
theorem pending_entry_resolved_exactly_once (st : TSt) (n : Nat)
    (evs1 evs2 : List Ev) (hinv : InvT st) (hn : n ∈ st.pending)
    (hnofire : ∀ e ∈ evs1, isFire n e = false) :
    n ∉ (runT st (evs1 ++ Ev.fire n :: evs2)).1.pending ∧
    cbCount n (runT st (evs1 ++ Ev.fire n :: evs2)).2
      + fbCount n (runT st (evs1 ++ Ev.fire n :: evs2)).2 = 1 ∧
    ((∃ e ∈ evs1, isCbEnv n e = true) →
      fbCount n (runT st (evs1 ++ Ev.fire n :: evs2)).2 = 0) ∧
    ((∀ e ∈ evs1, isCbEnv n e = false) →
      cbCount n (runT st (evs1 ++ Ev.fire n :: evs2)).2 = 0) := by
  induction evs1 generalizing st with
  | nil =>
      simp only [List.nil_append]
      rw [runT]
      obtain ⟨f1, f2, f3, f4, f5⟩ := stepT_fire_pending st n hinv hn
      obtain ⟨a1, a2, a3, a4, a5⟩ :=
        runT_absent evs2 (stepT st (Ev.fire n)).1 n f3 f1 f2
      refine ⟨a1, ?_, ?_, ?_⟩
      · rw [cbCount_append, fbCount_append, f4, f5, a4, a5]
      · rintro ⟨e, he, -⟩
        simp at he
      · intro _
        rw [cbCount_append, f4, a4]
  | cons e rest ih =>
      simp only [List.cons_append]
      rw [runT]
      cases hcb : isCbEnv n e with
      | true =>
          cases e with
          | call a c f => simp [isCbEnv] at hcb
          | fire id => simp [isCbEnv] at hcb
          | msg raw =>
              obtain ⟨c1, c2, c3, c4, c5⟩ := stepT_cbEnv st n raw hinv hn hcb
              obtain ⟨a1, a2, a3, a4, a5⟩ :=
                runT_absent (rest ++ Ev.fire n :: evs2)
                  (stepT st (Ev.msg raw)).1 n c3 c1 c2
              refine ⟨a1, ?_, ?_, ?_⟩
              · rw [cbCount_append, fbCount_append, c4, c5, a4, a5]
              · intro _
                rw [fbCount_append, c5, a5]
              · intro hall
                have := hall (Ev.msg raw) (by simp)
                rw [hcb] at this
                exact absurd this (by simp)
      | false =>
          have hfr : isFire n e = false := hnofire e (by simp)
          obtain ⟨u1, u2, u3, u4, u5⟩ := stepT_untouched st e n hinv hn hcb hfr
          obtain ⟨i1, i2, i3, i4⟩ := ih (stepT st e).1 u3 u1
            (fun e2 he2 => hnofire e2 (by simp [he2]))
          refine ⟨i1, ?_, ?_, ?_⟩
          · rw [cbCount_append, fbCount_append, u4, u5]
            omega
          · rintro ⟨e2, he2, hc2⟩
            rw [fbCount_append, u5]
            simp only [List.mem_cons] at he2
            cases he2 with
            | inl he3 =>
                rw [he3] at hc2
                rw [hc2] at hcb
                exact absurd hcb (by simp)
            | inr he3 =>
                rw [i3 ⟨e2, he3, hc2⟩]
          · intro hall
            rw [cbCount_append, u4]
            rw [i4 (fun e2 he2 => hall e2 (by simp [he2]))]

lemma stepT_assigned (st : TSt) (e : Ev) :
    st.lastId ≤ (stepT st e).1.lastId ∧
    ∀ i ∈ assignedIds (stepT st e).2, st.lastId < i ∧ i ≤ (stepT st e).1.lastId := by
  cases e with
  | call a hasCb hasFb =>
      cases hasCb with
      | false => exact ⟨Nat.le_refl _, fun i hi => by simp [stepT, assignedIds] at hi⟩
      | true =>
          cases hasFb with
          | false =>
              refine ⟨?_, fun i hi => ?_⟩
              · show st.lastId ≤ st.lastId + 1
                omega
              · have hi2 : i = st.lastId + 1 := by
                  simpa [stepT, assignedIds] using hi
                subst hi2
                show st.lastId < st.lastId + 1 ∧ st.lastId + 1 ≤ st.lastId + 1
                omega
          | true =>
              refine ⟨?_, fun i hi => ?_⟩
              · show st.lastId ≤ st.lastId + 1
                omega
              · have hi2 : i = st.lastId + 1 := by
                  simpa [stepT, assignedIds] using hi
                subst hi2
                show st.lastId < st.lastId + 1 ∧ st.lastId + 1 ≤ st.lastId + 1
                omega
  | msg raw =>
      cases honm : onMessage st raw with
      | none =>
          have hstep : stepT st (Ev.msg raw) = (st, []) := by
            show (match onMessage st raw with
              | some r2 => r2
              | none => (st, [])) = (st, [])
            rw [honm]
          rw [hstep]
          exact ⟨Nat.le_refl _, fun i hi => by simp [assignedIds] at hi⟩
      | some r =>
          have hstep : stepT st (Ev.msg raw) = r := by
            show (match onMessage st raw with
              | some r2 => r2
              | none => (st, [])) = r
            rw [honm]
          rw [hstep]
          obtain ⟨h1, h2, h3, h4⟩ := onMessage_cases st raw r honm
          rw [h1, h2]
          exact ⟨Nat.le_refl _, fun i hi => by simp at hi⟩
  | fire id =>
      cases hc : st.pending.contains id with
      | false =>
          have hstep : stepT st (Ev.fire id) = (st, []) := by
            show (if st.pending.contains id = true then
                ({ st with pending := st.pending.filter (fun x => x ≠ id) },
                  [Out.ranFallback id])
              else (st, [])) = _
            rw [hc]
            simp
          rw [hstep]
          exact ⟨Nat.le_refl _, fun i hi => by simp [assignedIds] at hi⟩
      | true =>
          have hstep : stepT st (Ev.fire id)
              = ({ st with pending := st.pending.filter (fun x => x ≠ id) },
                  [Out.ranFallback id]) := by
            show (if st.pending.contains id = true then
                ({ st with pending := st.pending.filter (fun x => x ≠ id) },
                  [Out.ranFallback id])
              else (st, [])) = _
            rw [if_pos hc]
          rw [hstep]
          exact ⟨Nat.le_refl _, fun i hi => by simp [assignedIds] at hi⟩

lemma runT_assigned (evs : List Ev) (st : TSt) :
    st.lastId ≤ (runT st evs).1.lastId ∧
    (∀ i ∈ assignedIds (runT st evs).2, st.lastId < i ∧ i ≤ (runT st evs).1.lastId) ∧
    (assignedIds (runT st evs).2).Pairwise (· < ·) := by
  induction evs generalizing st with
  | nil => exact ⟨Nat.le_refl _, fun i hi => by simp [assignedIds, runT] at hi, by simp [runT, assignedIds]⟩
  | cons e rest ih =>
      obtain ⟨s1, s2⟩ := stepT_assigned st e
      obtain ⟨r1, r2, r3⟩ := ih (stepT st e).1
      rw [runT]
      refine ⟨Nat.le_trans s1 r1, ?_, ?_⟩
      · intro i hi
        rw [assignedIds_append] at hi
        rcases List.mem_append.mp hi with hi2 | hi2
        · obtain ⟨hl, hr⟩ := s2 i hi2
          exact ⟨hl, Nat.le_trans hr r1⟩
        · obtain ⟨hl, hr⟩ := r2 i hi2
          exact ⟨Nat.lt_of_le_of_lt s1 hl, hr⟩
      · rw [assignedIds_append]
        rw [List.pairwise_append]
        refine ⟨?_, r3, ?_⟩
        · -- the step emits at most one id
          cases e with
          | call a hasCb hasFb =>
              cases hasCb <;> cases hasFb <;> simp [stepT, assignedIds]
          | msg raw =>
              cases honm : onMessage st raw with
              | none =>
                  have hstep : stepT st (Ev.msg raw) = (st, []) := by
                    show (match onMessage st raw with
                      | some r2 => r2
                      | none => (st, [])) = (st, [])
                    rw [honm]
                  rw [hstep]
                  simp [assignedIds]
              | some r =>
                  have hstep : stepT st (Ev.msg raw) = r := by
                    show (match onMessage st raw with
                      | some r2 => r2
                      | none => (st, [])) = r
                    rw [honm]
                  rw [hstep]
                  rw [(onMessage_cases st raw r honm).2.1]
                  simp
          | fire id =>
              cases hc : st.pending.contains id with
              | false =>
                  have hstep : stepT st (Ev.fire id) = (st, []) := by
                    show (if st.pending.contains id = true then
                        ({ st with pending := st.pending.filter (fun x => x ≠ id) },
                          [Out.ranFallback id])
                      else (st, [])) = _
                    rw [hc]; simp
                  rw [hstep]; simp [assignedIds]
              | true =>
                  have hstep : stepT st (Ev.fire id)
                      = ({ st with pending := st.pending.filter (fun x => x ≠ id) },
                          [Out.ranFallback id]) := by
                    show (if st.pending.contains id = true then
                        ({ st with pending := st.pending.filter (fun x => x ≠ id) },
                          [Out.ranFallback id])
                      else (st, [])) = _
                    rw [if_pos hc]
                  rw [hstep]; simp [assignedIds]
        · intro x hx y hy
          have hx2 := (s2 x hx).2
          have hy2 := (r2 y hy).1
          omega

/-- C4: over any process lifetime (any event trace from the initial
transport state), the callbackIds assigned to `callApp` calls that
register a callback are strictly increasing in order of assignment, hence
pairwise distinct and never reused, and every assigned id is a positive
integer. -/
theorem callback_ids_strictly_increasing (evs : List Ev) :
    (assignedIds (runT initT evs).2).Pairwise (· < ·) ∧
    ∀ i ∈ assignedIds (runT initT evs).2, 1 ≤ i := by
  obtain ⟨h1, h2, h3⟩ := runT_assigned evs initT
  refine ⟨h3, fun i hi => ?_⟩
  have h4 := (h2 i hi).1
  have h5 : (0 : Nat) < i := h4
  omega

/-- C6: an inbound callback Envelope (truthy message, `action:
"callback"`, truthy `callbackId`) whose callbackId matches no pending
entry — it is unknown, or was already consumed by a response or by the
timeout fallback — has no observable effect: no exception (the handler
returns normally), no output, and the transport state is unchanged. -/
theorem unknown_callback_id_no_effect (st : TSt) (m : JVal) (raw : RawData)
    (hraw : raw = RawData.strOf m ∨ raw = RawData.direct m)
    (hact : m.getProp "action" = some (JVal.str "callback"))
    (hcid : truthyO (m.getProp "callbackId") = true)
    (hunknown : ∀ k ∈ st.pending,
      keyMatches ((m.getProp "callbackId").getD JVal.null) k = false) :
    onMessage st raw = some (st, []) := by
  have htr : m.truthy = true := by
    cases m with
    | obj fields => rfl
    | null => simp [JVal.getProp] at hact
    | bool b => simp [JVal.getProp] at hact
    | num i => simp [JVal.getProp] at hact
    | str s => simp [JVal.getProp] at hact
    | arr l => simp [JVal.getProp] at hact
  have hfind : st.pending.find?
      (fun k => keyMatches ((m.getProp "callbackId").getD JVal.null) k) = none := by
    apply List.find?_eq_none.mpr
    intro x hx
    simp [hunknown x hx]
  have htr2 : (JVal.str "callback").truthy = true := rfl
  have hm : handleMsg st m = some (st, []) := by
    unfold handleMsg
    simp [htr, hact, hcid, hfind, isStr, htr2]
  cases hraw with
  | inl h2 => rw [h2]; exact hm
  | inr h2 => rw [h2]; exact hm

/-- C8: the inbound handler is total and silent on malformed input: a
non-JSON string, a falsy parsed message (for example null), or a message
without a truthy `action` field is discarded with no exception, no state
change, no callback invocation and no notification. -/
theorem malformed_inbound_discarded (st : TSt) (raw : RawData)
    (h : malformedRaw raw = true) :
    onMessage st raw = some (st, []) := by
  cases raw with
  | strBad => rfl
  | strOf m =>
      show handleMsg st m = some (st, [])
      cases htr : m.truthy with
      | false => unfold handleMsg; simp [htr]
      | true =>
          simp only [malformedRaw, htr] at h
          cases hact : m.getProp "action" with
          | none => unfold handleMsg; simp [htr, hact]
          | some a =>
              rw [hact] at h
              simp only [Bool.not_true, Bool.false_or] at h
              unfold handleMsg
              simp [htr, hact, h]
  | direct m =>
      show handleMsg st m = some (st, [])
      cases htr : m.truthy with
      | false => unfold handleMsg; simp [htr]
      | true =>
          simp only [malformedRaw, htr] at h
          cases hact : m.getProp "action" with
          | none => unfold handleMsg; simp [htr, hact]
          | some a =>
              rw [hact] at h
              simp only [Bool.not_true, Bool.false_or] at h
              unfold handleMsg
              simp [htr, hact, h]

lemma getStoredData_corrupt_self (ls : LocalStore) (sk : String) :
    Bridge.getStoredData (lsSet ls sk Cell.corrupt) sk = [] := by
  simp [Bridge.getStoredData, lsLookup_lsSet_self]

/-- C2 amended: in Standalone mode `storage.get` returns the whole stored
mapping exactly when the key argument is falsy — null (absent) or the
empty string — and for every truthy (non-empty) key it returns the single
value stored under that key, possibly undefined; when a callback is
supplied it is invoked synchronously with that same value, which is also
returned directly to the caller. -/
theorem storage_get_contract (key : Option String) (hasCb : Bool)
    (ck : Option String) (s : St) :
    ((key = none ∨ key = some "") →
      (Bridge.storageGet key hasCb ck s).ret
        = some (JVal.obj (Bridge.getStoredData s.ls (jsOr ck Bridge.STORAGE_KEY)))) ∧
    (∀ k, key = some k → k ≠ "" →
      (Bridge.storageGet key hasCb ck s).ret
        = Obj.lookup (Bridge.getStoredData s.ls (jsOr ck Bridge.STORAGE_KEY)) k) ∧
    (hasCb = true →
      (Bridge.storageGet key hasCb ck s).cb
        = some (Bridge.storageGet key hasCb ck s).ret) ∧
    (hasCb = false → (Bridge.storageGet key hasCb ck s).cb = none) := by
  refine ⟨?_, ?_, ?_, ?_⟩
  · rintro (rfl | rfl) <;> simp [Bridge.storageGet]
  · rintro k rfl hk
    simp [Bridge.storageGet, hk]
  · intro h2; simp [Bridge.storageGet, h2]
  · intro h2; simp [Bridge.storageGet, h2]

/-- C9: a missing or corrupt (unparseable) persisted entry reads as the
empty mapping, and every Standalone storage operation behaves on a
namespace with a corrupt or absent entry exactly as it does when that
namespace holds the serialized empty mapping. -/
theorem corrupt_or_missing_entry_as_empty (ls : LocalStore) (sk : String) :
    (lsLookup ls sk = none → Bridge.getStoredData ls sk = []) ∧
    (lsLookup ls sk = some Cell.corrupt → Bridge.getStoredData ls sk = []) ∧
    (∀ (ev : List Obj) (key : Option String) (hasCb : Bool) (ck : Option String)
        (cs : Obj) (rkey : String) (t : Int),
      sk = jsOr ck Bridge.STORAGE_KEY →
      (Bridge.storageGet key hasCb ck { ls := lsSet ls sk Cell.corrupt, events := ev }
        = Bridge.storageGet key hasCb ck { ls := lsSet ls sk (Cell.json []), events := ev }) ∧
      (Bridge.storageSet cs ck t { ls := lsSet ls sk Cell.corrupt, events := ev }
        = Bridge.storageSet cs ck t { ls := lsSet ls sk (Cell.json []), events := ev }) ∧
      (Bridge.storageRemove rkey ck t { ls := lsSet ls sk Cell.corrupt, events := ev }
        = Bridge.storageRemove rkey ck t { ls := lsSet ls sk (Cell.json []), events := ev }) ∧
      (Bridge.storageClear ck t { ls := lsSet ls sk Cell.corrupt, events := ev }
        = Bridge.storageClear ck t { ls := lsSet ls sk (Cell.json []), events := ev })) ∧
    (∀ (ev : List Obj) (key : Option String) (hasCb : Bool) (ck : Option String)
        (cs : Obj) (rkey : String) (t : Int),
      sk = jsOr ck Bridge.STORAGE_KEY → lsLookup ls sk = none →
      (Bridge.storageGet key hasCb ck { ls := ls, events := ev }
        = Bridge.storageGet key hasCb ck { ls := lsSet ls sk (Cell.json []), events := ev }) ∧
      (Bridge.storageSet cs ck t { ls := ls, events := ev }
        = Bridge.storageSet cs ck t { ls := lsSet ls sk (Cell.json []), events := ev }) ∧
      (Bridge.storageRemove rkey ck t { ls := ls, events := ev }
        = Bridge.storageRemove rkey ck t { ls := lsSet ls sk (Cell.json []), events := ev }) ∧
      (Bridge.storageClear ck t { ls := ls, events := ev }
        = Bridge.storageClear ck t { ls := lsSet ls sk (Cell.json []), events := ev })) := by
  refine ⟨?_, ?_, ?_, ?_⟩
  · intro h; simp [Bridge.getStoredData, h]
  · intro h; simp [Bridge.getStoredData, h]
  · rintro ev key hasCb ck cs rkey t rfl
    refine ⟨?_, ?_, ?_, ?_⟩
    · simp [Bridge.storageGet, getStoredData_corrupt_self, getStoredData_lsSet_self]
    · simp [Bridge.storageSet, Bridge.setStoredData, Bridge.broadcastUpdate,
        getStoredData_corrupt_self, getStoredData_lsSet_self, lsSet_lsSet]
    · simp [Bridge.storageRemove, Bridge.setStoredData, Bridge.broadcastUpdate,
        getStoredData_corrupt_self, getStoredData_lsSet_self, lsSet_lsSet]
    · simp [Bridge.storageClear, Bridge.setStoredData, Bridge.broadcastUpdate,
        lsSet_lsSet]
  · rintro ev key hasCb ck cs rkey t rfl hnone
    have hempty : Bridge.getStoredData ls (jsOr ck Bridge.STORAGE_KEY) = [] := by
      simp [Bridge.getStoredData, hnone]
    refine ⟨?_, ?_, ?_, ?_⟩
    · simp [Bridge.storageGet, hempty, getStoredData_lsSet_self]
    · simp [Bridge.storageSet, Bridge.setStoredData, Bridge.broadcastUpdate,
        hempty, getStoredData_lsSet_self, lsSet_lsSet]
    · simp [Bridge.storageRemove, Bridge.setStoredData, Bridge.broadcastUpdate,
        hempty, getStoredData_lsSet_self, lsSet_lsSet]
    · simp [Bridge.storageClear, Bridge.setStoredData, Bridge.broadcastUpdate,
        lsSet_lsSet]

/-- C1 amended: for every storage namespace other than the cross-tab
signalling slot `stqryStorageEvent`, Standalone `storage.set` merges the
changeset into the existing mapping — caller-supplied keys overwrite
same-named keys, every other key is preserved — and, starting from an
empty namespace, any sequence of `set` calls with well-formed, pairwise
disjoint changesets leaves exactly the union of the changesets, last
write per key winning, as observed by `get(null, ...)`.  (On the
signalling slot itself the broadcast write clobbers the namespace.) -/
theorem standalone_set_merges_and_unions :
    (∀ (s : St) (cs : Obj) (ck : Option String) (t : Int) (k : String),
       jsOr ck Bridge.STORAGE_KEY ≠ EVENT_KEY → Obj.WF cs →
       Obj.lookup (Bridge.getStoredData (Bridge.storageSet cs ck t s).ls
           (jsOr ck Bridge.STORAGE_KEY)) k
         = optOr (Obj.lookup cs k)
             (Obj.lookup (Bridge.getStoredData s.ls (jsOr ck Bridge.STORAGE_KEY)) k)) ∧
    (∀ (l : List (Obj × Int)) (ck : Option String) (s : St),
       jsOr ck Bridge.STORAGE_KEY ≠ EVENT_KEY →
       Bridge.getStoredData s.ls (jsOr ck Bridge.STORAGE_KEY) = [] →
       (∀ p ∈ l, Obj.WF p.1) →
       KeysDisjoint (l.map Prod.fst) →
       (Bridge.storageGet none false ck (applySets l ck s)).ret
           = some (JVal.obj (Bridge.getStoredData (applySets l ck s).ls
               (jsOr ck Bridge.STORAGE_KEY))) ∧
       ∀ k, Obj.lookup (Bridge.getStoredData (applySets l ck s).ls
               (jsOr ck Bridge.STORAGE_KEY)) k
           = lookupUnion (l.map Prod.fst) k) := by
  constructor
  · intro s cs ck t k hsk hwf
    rw [getStoredData_storageSet _ _ _ _ hsk, Obj.lookup_assign,
      lookupLast_eq_lookup _ _ hwf]
  · intro l ck s hsk hempty hwf hdisj
    constructor
    · simp [Bridge.storageGet]
    · intro k
      rw [applySets_lookup l ck s hsk hwf k, hempty]
      cases lookupUnion (l.map Prod.fst) k <;> simp [optOr, Obj.lookup]

/-- C7 amended: for every storage namespace other than the cross-tab
signalling slot `stqryStorageEvent`, Standalone `storage.remove` of a key
deletes exactly that key — removing an absent key leaves the namespace
mapping unchanged and still succeeds, with the callback invoked and no
error — and every other key keeps its value.  (On the signalling slot the
broadcast write replaces the mapping even for an absent key.) -/
theorem standalone_remove_idempotent (s : St) (key : String) (hasCb : Bool)
    (ck : Option String) (t : Int)
    (hsk : jsOr ck Bridge.STORAGE_KEY ≠ EVENT_KEY)
    (hwf : Obj.WF (Bridge.getStoredData s.ls (jsOr ck Bridge.STORAGE_KEY))) :
    (Bridge.getStoredData (Bridge.storageRemove key ck t s).ls
        (jsOr ck Bridge.STORAGE_KEY)
      = Obj.erase (Bridge.getStoredData s.ls (jsOr ck Bridge.STORAGE_KEY)) key) ∧
    (Obj.lookup (Bridge.getStoredData s.ls (jsOr ck Bridge.STORAGE_KEY)) key = none →
      Bridge.getStoredData (Bridge.storageRemove key ck t s).ls
          (jsOr ck Bridge.STORAGE_KEY)
        = Bridge.getStoredData s.ls (jsOr ck Bridge.STORAGE_KEY)) ∧
    Obj.lookup (Bridge.getStoredData (Bridge.storageRemove key ck t s).ls
        (jsOr ck Bridge.STORAGE_KEY)) key = none ∧
    (∀ k2, k2 ≠ key →
      Obj.lookup (Bridge.getStoredData (Bridge.storageRemove key ck t s).ls
          (jsOr ck Bridge.STORAGE_KEY)) k2
        = Obj.lookup (Bridge.getStoredData s.ls (jsOr ck Bridge.STORAGE_KEY)) k2) ∧
    (Bridge.applyOp s (SOp.remove key hasCb ck t)).2 = Obs.done hasCb := by
  have herase := getStoredData_storageRemove key ck t s hsk
  refine ⟨herase, ?_, ?_, ?_, rfl⟩
  · intro habs
    rw [herase, erase_of_not_found _ _ habs]
  · rw [herase]
    exact lookup_erase_self _ _ hwf
  · intro k2 hk2
    rw [herase]
    exact lookup_erase_ne _ _ _ hk2

/-- C10: the Standalone storage surfaces of src/stqry-bridge.js and of
the reduced copy src/unnamed/part_001 are behaviorally equivalent: from
any starting state, any sequence of get/set/remove/clear calls (with
identical clock readings) produces identical return values, callback
arguments, resulting store contents and broadcast records. -/
theorem reduced_copy_storage_equivalent (s : St) (ops : List SOp) :
    Bridge.runOps s ops = Bridge2.runOps s ops := by
  induction ops generalizing s with
  | nil => rfl
  | cons op rest ih =>
      have hop : Bridge.applyOp s op = Bridge2.applyOp s op := by
        cases op <;> rfl
      rw [Bridge.runOps, Bridge2.runOps, hop, ih (Bridge2.applyOp s op).1]

/-- C5 amended: runtime detection is first-match-wins — a truthy native
bridge object yields ReactNative regardless of parenthood; otherwise a
truthy distinct parent yields IFrame when probing the parent messaging
primitive finds it truthy or throws an isolation exception, but falls
through to NoRuntime when the probe succeeds and finds it falsy; and with
no truthy distinct parent the result is NoRuntime. -/
theorem detect_runtime_precedence (e : Env) :
    (e.reactNativeWebView = true → detectRuntime e = Runtime.ReactNative) ∧
    (e.reactNativeWebView = false → e.parentTruthy = true → e.parentDistinct = true →
      ((e.probe = Probe.val true ∨ e.probe = Probe.throws) →
        detectRuntime e = Runtime.IFrame) ∧
      (e.probe = Probe.val false → detectRuntime e = Runtime.NoRuntime)) ∧
    ((e.reactNativeWebView = false ∧
        (e.parentTruthy = false ∨ e.parentDistinct = false)) →
      detectRuntime e = Runtime.NoRuntime) := by
  obtain ⟨rn, pt, pd, pr⟩ := e
  rcases pr with t | _
  · cases t <;> cases rn <;> cases pt <;> cases pd <;> decide
  · cases rn <;> cases pt <;> cases pd <;> decide

/-- C1 counterexample: selecting the storage namespace
`stqryStorageEvent` (the cross-tab signalling slot) and applying the
single-changeset sequence `set {a: 1}` from an empty store, the mapping
then observed by `get(null, ...)` is the broadcast record — its key `a`
is absent — while the union of the applied changesets maps `a` to 1. -/
theorem set_into_signalling_slot_breaks_union :
    (Bridge.storageGet none false (some "stqryStorageEvent")
        (applySets [([("a", JVal.num 1)], 0)] (some "stqryStorageEvent")
          { ls := [], events := [] })).ret
      = some (JVal.obj [("timestamp", JVal.num 0),
          ("data", JVal.obj [("a", JVal.num 1)])]) ∧
    Obj.lookup [("timestamp", JVal.num 0), ("data", JVal.obj [("a", JVal.num 1)])] "a"
      = none ∧
    lookupUnion [[("a", JVal.num 1)]] "a" = some (JVal.num 1) :=
  ⟨rfl, rfl, rfl⟩

/-- C2 counterexample: with the mapping `{a: 1}` stored, `get` called
with the empty-string key — a key that is not null — returns the whole
mapping, not the value stored under the key `""` (which is undefined). -/
theorem get_empty_string_key_returns_whole_mapping :
    (Bridge.storageGet (some "") true none
        { ls := [("stqryStorage", Cell.json [("a", JVal.num 1)])], events := [] }).ret
      = some (JVal.obj [("a", JVal.num 1)]) ∧
    Obj.lookup [("a", JVal.num 1)] "" = none :=
  ⟨rfl, rfl⟩

/-- C5 counterexample: an environment with no native bridge object and a
truthy, distinct parent whose `postMessage` probe succeeds but finds a
falsy value is classified NoRuntime, not IFrame as the claim states. -/
theorem distinct_parent_without_post_message_not_iframe :
    detectRuntime (Env.mk false true true (Probe.val false)) = Runtime.NoRuntime ∧
    Runtime.NoRuntime ≠ Runtime.IFrame :=
  ⟨rfl, by decide⟩

/-- C7 counterexample: on the namespace `stqryStorageEvent` (the
signalling slot) holding `{a: 1}`, removing the absent key `x` does not
leave the stored mapping unchanged: the broadcast write replaces it and
the key `a` is lost. -/
theorem remove_on_signalling_slot_changes_mapping :
    Obj.lookup (Bridge.getStoredData
        [("stqryStorageEvent", Cell.json [("a", JVal.num 1)])] "stqryStorageEvent") "x"
      = none ∧
    Obj.lookup (Bridge.getStoredData
        [("stqryStorageEvent", Cell.json [("a", JVal.num 1)])] "stqryStorageEvent") "a"
      = some (JVal.num 1) ∧
    Obj.lookup (Bridge.getStoredData
        (Bridge.storageRemove "x" (some "stqryStorageEvent") 7
          { ls := [("stqryStorageEvent", Cell.json [("a", JVal.num 1)])],
            events := [] }).ls
        "stqryStorageEvent") "a" = none :=
  ⟨rfl, rfl, rfl⟩

theorem standalone_set_merges_and_unions_witness :
    Obj.lookup (Bridge.getStoredData
        (applySets [([("a", JVal.num 1)], 0), ([("b", JVal.num 2)], 1)] none
          (St.mk [] [])).ls (jsOr none Bridge.STORAGE_KEY)) "a" = some (JVal.num 1) ∧
    Obj.lookup (Bridge.getStoredData
        (applySets [([("a", JVal.num 1)], 0), ([("b", JVal.num 2)], 1)] none
          (St.mk [] [])).ls (jsOr none Bridge.STORAGE_KEY)) "b" = some (JVal.num 2) := by
  have h := (standalone_set_merges_and_unions).2
    [([("a", JVal.num 1)], 0), ([("b", JVal.num 2)], 1)] none (St.mk [] [])
    (by decide) rfl
    (by intro p hp; unfold Obj.WF; simp at hp; rcases hp with h1 | h1 <;> rw [h1] <;> decide)
    (by unfold KeysDisjoint; decide)
  exact ⟨(h.2 "a").trans rfl, (h.2 "b").trans rfl⟩

theorem storage_get_contract_witness :
    (Bridge.storageGet (some "a") true none
        (St.mk [("stqryStorage", Cell.json [("a", JVal.num 1)])] [])).ret
      = some (JVal.num 1) ∧
    (Bridge.storageGet (some "a") true none
        (St.mk [("stqryStorage", Cell.json [("a", JVal.num 1)])] [])).cb
      = some (some (JVal.num 1)) := by
  have h := storage_get_contract (some "a") true none
    (St.mk [("stqryStorage", Cell.json [("a", JVal.num 1)])] [])
  have h1 : (Bridge.storageGet (some "a") true none
      (St.mk [("stqryStorage", Cell.json [("a", JVal.num 1)])] [])).ret
        = some (JVal.num 1) :=
    (h.2.1 "a" rfl (by decide)).trans rfl
  have h2 := h.2.2.1 rfl
  exact ⟨h1, by rw [h2, h1]⟩

theorem pending_entry_resolved_exactly_once_witness :
    1 ∉ (runT (TSt.mk 1 [1]) ([] ++ Ev.fire 1 :: [])).1.pending ∧
    cbCount 1 (runT (TSt.mk 1 [1]) ([] ++ Ev.fire 1 :: [])).2
      + fbCount 1 (runT (TSt.mk 1 [1]) ([] ++ Ev.fire 1 :: [])).2 = 1 ∧
    ((∃ e ∈ ([] : List Ev), isCbEnv 1 e = true) →
      fbCount 1 (runT (TSt.mk 1 [1]) ([] ++ Ev.fire 1 :: [])).2 = 0) ∧
    ((∀ e ∈ ([] : List Ev), isCbEnv 1 e = false) →
      cbCount 1 (runT (TSt.mk 1 [1]) ([] ++ Ev.fire 1 :: [])).2 = 0) :=
  pending_entry_resolved_exactly_once (TSt.mk 1 [1]) 1 [] []
    (by decide : ∀ m ∈ ([1] : List Nat), m ≤ 1) (by simp) (by simp)

theorem callback_ids_strictly_increasing_witness :
    (assignedIds (runT initT
        [Ev.call "user.get" true false, Ev.call "device.get" true true]).2).Pairwise
      (· < ·) ∧
    ∀ i ∈ assignedIds (runT initT
        [Ev.call "user.get" true false, Ev.call "device.get" true true]).2, 1 ≤ i :=
  callback_ids_strictly_increasing
    [Ev.call "user.get" true false, Ev.call "device.get" true true]

theorem detect_runtime_precedence_witness :
    detectRuntime (Env.mk true true true (Probe.val true)) = Runtime.ReactNative ∧
    detectRuntime (Env.mk false true true Probe.throws) = Runtime.IFrame ∧
    detectRuntime (Env.mk false true false (Probe.val true)) = Runtime.NoRuntime :=
  ⟨(detect_runtime_precedence (Env.mk true true true (Probe.val true))).1 rfl,
   ((detect_runtime_precedence (Env.mk false true true Probe.throws)).2.1
      rfl rfl rfl).1 (Or.inr rfl),
   (detect_runtime_precedence (Env.mk false true false (Probe.val true))).2.2
      ⟨rfl, Or.inr rfl⟩⟩

theorem unknown_callback_id_no_effect_witness :
    onMessage (TSt.mk 5 [2])
      (RawData.direct (JVal.obj [("action", JVal.str "callback"),
        ("callbackId", JVal.num 3)]))
      = some (TSt.mk 5 [2], []) :=
  unknown_callback_id_no_effect (TSt.mk 5 [2])
    (JVal.obj [("action", JVal.str "callback"), ("callbackId", JVal.num 3)])
    (RawData.direct (JVal.obj [("action", JVal.str "callback"),
      ("callbackId", JVal.num 3)]))
    (Or.inr rfl) rfl rfl (by decide)

theorem standalone_remove_idempotent_witness :
    Bridge.getStoredData
        (Bridge.storageRemove "x" none 5
          (St.mk [("stqryStorage", Cell.json [("a", JVal.num 1)])] [])).ls
        (jsOr none Bridge.STORAGE_KEY)
      = [("a", JVal.num 1)] := by
  have h := standalone_remove_idempotent
    (St.mk [("stqryStorage", Cell.json [("a", JVal.num 1)])] [])
    "x" true none 5 (by decide) (by unfold Obj.WF; decide)
  exact (h.2.1 rfl).trans rfl

theorem malformed_inbound_discarded_witness :
    onMessage (TSt.mk 0 []) (RawData.direct (JVal.obj [("data", JVal.num 1)]))
      = some (TSt.mk 0 [], []) :=
  malformed_inbound_discarded (TSt.mk 0 [])
    (RawData.direct (JVal.obj [("data", JVal.num 1)])) rfl

theorem corrupt_or_missing_entry_as_empty_witness :
    Bridge.getStoredData [("stqryStorage", Cell.corrupt)] "stqryStorage" = [] :=
  (corrupt_or_missing_entry_as_empty [("stqryStorage", Cell.corrupt)]
    "stqryStorage").2.1 rfl

theorem reduced_copy_storage_equivalent_witness :
    Bridge.runOps (St.mk [] [])
        [SOp.set [("x", JVal.num 1)] true none 0, SOp.get (some "x") true none]
      = Bridge2.runOps (St.mk [] [])
        [SOp.set [("x", JVal.num 1)] true none 0, SOp.get (some "x") true none] :=
  reduced_copy_storage_equivalent (St.mk [] [])
    [SOp.set [("x", JVal.num 1)] true none 0, SOp.get (some "x") true none]
